import Mathlib

/-!
Verification of the Dun shielded-pool SDK core
(`dun-protocol/sdk/src/utils.ts`, `dun-protocol/sdk/src/v3/proofs.ts` /
`secrets.ts`, `dun-protocol/sdk/src/v3/client.ts`, `lib/dun/v5/client.ts`).

Modelling conventions:
* JavaScript `BigInt` values are modelled as `Nat` (all values in play are
  non-negative); amounts are kept in base units (lamports) where the source
  converts through SOL `number`s, and the SOL-denominated amount vocabulary
  is modelled over `ℚ` (decimal literals are represented exactly).
* `Buffer`s are byte lists (`List Nat`, each entry `< 256`); hex strings are
  hex-digit lists (`List Nat`, each entry `< 16`).
* The Poseidon hash from `circomlibjs` is an external library; every
  definition that calls it is parametrised by the 2-ary hash `p2` and the
  3-ary hash `p3`.
* Functions that `throw` are modelled with `Except String` carrying the
  thrown message; the mutable session of `V3SecretManager` is threaded as
  explicit state.
-/

/-! ## Byte/hex encodings (`dun-protocol/sdk/src/utils.ts`) -/

/-- Big-endian numeric value of a byte list: the value of the hex string
`buffer.toString('hex')`. -/
def beBytesVal (buffer : List Nat) : Nat :=
  buffer.foldl (fun acc b => acc * 256 + b) 0

/-- Embeds `bufferToBigInt` (utils.ts line 56): `BigInt('0x' + buffer.toString('hex'))`.
On an empty buffer the string is `'0x'` and `BigInt` throws, modelled by `none`. -/
def bufferToBigInt (buffer : List Nat) : Option Nat :=
  if buffer.isEmpty then none else some (beBytesVal buffer)

/-- Fuel-driven base-16 digit expansion (big-endian). Fuel `v + 1` always
suffices; see `hexDigits_lt` / `hexDigits_ge` for the two defining equations. -/
def hexDigitsAux : Nat → Nat → List Nat
  | 0, _ => []
  | fuel + 1, v => if v < 16 then [v] else hexDigitsAux fuel (v / 16) ++ [v % 16]

/-- Embeds `value.toString(16)`: the big-endian hex digits of `value`, with a
single digit `0` for zero and no leading zeros otherwise. -/
def hexDigits (v : Nat) : List Nat :=
  hexDigitsAux (v + 1) v

/-- Numeric value of a big-endian hex digit list. -/
def hexVal (digits : List Nat) : Nat :=
  digits.foldl (fun acc d => acc * 16 + d) 0

/-- Embeds Node's `Buffer.from(hex, 'hex')`: consumes hex digits two at a
time; a trailing lone digit (odd-length hex string) is dropped. -/
def hexPairsToBytes : List Nat → List Nat
  | hi :: lo :: rest => (hi * 16 + lo) :: hexPairsToBytes rest
  | _ => []

/-- Embeds `hex.padStart(width, '0')`. -/
def padStartZeros (digits : List Nat) (width : Nat) : List Nat :=
  List.replicate (width - digits.length) 0 ++ digits

/-- Embeds `bigIntToBuffer` (utils.ts line 60):
`Buffer.from(value.toString(16).padStart(length * 2, '0'), 'hex')`. -/
def bigIntToBuffer (value : Nat) (length : Nat) : List Nat :=
  hexPairsToBytes (padStartZeros (hexDigits value) (length * 2))

/-! ## Secret-manager session (`v3/secrets.ts`, class `V3SecretManager`) -/

/-- Mutable session state of `V3SecretManager`: the cached signature and the
rejection flag. -/
structure SecretSession where
  cachedSignature : Option (List Nat)
  signatureRejected : Bool
deriving Repr, DecidableEq

/-- Fresh session state (field initialisers of `V3SecretManager`). -/
def initialSession : SecretSession :=
  { cachedSignature := none, signatureRejected := false }

/-- Outcome of one `wallet.signMessage` invocation. The source classifies a
thrown error as a user rejection by pattern-matching its message, name and
code (secrets.ts lines 331-341); that classifier is abstracted into the
`rejected` vs `failed` constructors. -/
inductive SignOutcome where
  | signed (sig : List Nat)
  | rejected
  | failed (msg : String)
deriving Repr, DecidableEq

/-- The wallet adapter as seen by `getWalletSignature`: connectivity,
`signMessage` support, and the outcome the wallet would produce if prompted. -/
structure Wallet where
  connected : Bool
  hasSignMessage : Bool
  outcome : SignOutcome
deriving Repr, DecidableEq

/-- The exact message thrown on (and after) a user rejection
(secrets.ts lines 299 and 345). -/
def rejectedMsg : String :=
  "User rejected the signature request. Please refresh the page to try again."

/-- Result of one `getWalletSignature` call: the returned signature or thrown
message, the session state afterwards, and whether `wallet.signMessage` was
actually invoked. -/
structure SigCall where
  result : Except String (List Nat)
  session : SecretSession
  invokedSignMessage : Bool
deriving Repr

/-- Embeds `V3SecretManager.getWalletSignature` (secrets.ts lines 291-351). -/
def getWalletSignature (st : SecretSession) (w : Wallet) : SigCall :=
  match st.cachedSignature with
  | some s => ⟨.ok s, st, false⟩
  | none =>
    if st.signatureRejected then ⟨.error rejectedMsg, st, false⟩
    else if !w.connected then ⟨.error "Wallet not connected", st, false⟩
    else if !w.hasSignMessage then ⟨.error "Wallet does not support message signing", st, false⟩
    else
      match w.outcome with
      | .signed s => ⟨.ok s, { cachedSignature := some s, signatureRejected := false }, true⟩
      | .rejected => ⟨.error rejectedMsg, { cachedSignature := none, signatureRejected := true }, true⟩
      | .failed m => ⟨.error m, st, true⟩

/-- Embeds `V3SecretManager.clearCache` (secrets.ts lines 461-465). -/
def clearCache (_ : SecretSession) : SecretSession :=
  { cachedSignature := none, signatureRejected := false }

/-- Embeds `V3SecretManager.deriveMasterKey` (secrets.ts lines 356-366):
`BigInt('0x' + Buffer.from(signature.slice(0, 31)).toString('hex'))` on the
signature obtained from `getWalletSignature`. -/
def deriveMasterKeySt (st : SecretSession) (w : Wallet) :
    Except String Nat × SecretSession :=
  match getWalletSignature st w with
  | ⟨.ok s, st1, _⟩ =>
    match bufferToBigInt (s.take 31) with
    | some mk => (.ok mk, st1)
    | none => (.error "Cannot convert 0x to a BigInt", st1)
  | ⟨.error e, st1, _⟩ => (.error e, st1)

/-- Embeds `V3SecretManager.deriveSecret` (secrets.ts lines 372-390):
`Poseidon(masterKey, nonce, amount)`, with `p3` the 3-ary Poseidon hash. -/
def deriveSecretSt (p3 : Nat → Nat → Nat → Nat) (st : SecretSession) (w : Wallet)
    (nonce amount : Nat) : Except String Nat × SecretSession :=
  match deriveMasterKeySt st w with
  | (.ok mk, st1) => (.ok (p3 mk nonce amount), st1)
  | (.error e, st1) => (.error e, st1)

/-! ## Commitment scanning (`v3/secrets.ts`, `scanCommitments`) -/

/-- An owned-commitment record pushed by `scanCommitments`
(secrets.ts lines 438-444). -/
structure OwnedCommitment where
  commitment : Nat
  address : String
  amount : Nat
  secret : Nat
  nonce : Nat
deriving Repr, DecidableEq

/-- Embeds `computeCommitment` (proofs.ts lines 99-103):
`Poseidon(amount, secret)` with `p2` the 2-ary Poseidon hash. -/
def computeCommitment (p2 : Nat → Nat → Nat) (amount secret : Nat) : Nat :=
  p2 amount secret

/-- Embeds `computeNullifier` (proofs.ts lines 109-113):
`Poseidon(secret, commitment)`. -/
def computeNullifier (p2 : Nat → Nat → Nat) (secret commitment : Nat) : Nat :=
  p2 secret commitment

/-- Embeds the inner `for (let nonce = 0; nonce < maxNonce; nonce++)` loop of
`scanCommitments` (secrets.ts lines 426-450) for one `(element, amount)` pair,
threading the secret-manager session through each `deriveSecret` call.
Returns the first matching `(nonce, secret)` if any, the number of candidate
derivations attempted, and the final session. A `deriveSecret` throw is caught
by the `try`/`catch` and the loop continues. -/
def scanNonceLoopSt (p2 : Nat → Nat → Nat) (p3 : Nat → Nat → Nat → Nat)
    (w : Wallet) (amount commitment : Nat) :
    SecretSession → Nat → Nat → Option (Nat × Nat) × Nat × SecretSession
  | st, _, 0 => (none, 0, st)
  | st, nonce, fuel + 1 =>
    match deriveSecretSt p3 st w nonce amount with
    | (.ok secret, st1) =>
      if computeCommitment p2 amount secret = commitment then
        (some (nonce, secret), 1, st1)
      else
        let r := scanNonceLoopSt p2 p3 w amount commitment st1 (nonce + 1) fuel
        (r.1, r.2.1 + 1, r.2.2)
    | (.error _, st1) =>
      let r := scanNonceLoopSt p2 p3 w amount commitment st1 (nonce + 1) fuel
      (r.1, r.2.1 + 1, r.2.2)

/-- Embeds the `for (const amount of possibleAmounts)` loop of
`scanCommitments` for one on-ledger element. Note that the source's `break`
exits only the nonce loop, so the amount loop continues for the same element
even after a match. Returns the records pushed for this element (in push
order), the total number of candidate derivations attempted for it, and the
final session. -/
def scanElementSt (p2 : Nat → Nat → Nat) (p3 : Nat → Nat → Nat → Nat)
    (w : Wallet) (maxNonce : Nat) (commitment : Nat) (address : String) :
    SecretSession → List Nat → List OwnedCommitment × Nat × SecretSession
  | st, [] => ([], 0, st)
  | st, amount :: rest =>
    let r := scanNonceLoopSt p2 p3 w amount commitment st 0 maxNonce
    let rr := scanElementSt p2 p3 w maxNonce commitment address r.2.2 rest
    match r.1 with
    | some ns =>
      (⟨commitment, address, amount, ns.2, ns.1⟩ :: rr.1, r.2.1 + rr.2.1, rr.2.2)
    | none => (rr.1, r.2.1 + rr.2.1, rr.2.2)

/-- Embeds `V3SecretManager.scanCommitments` (secrets.ts lines 404-456),
instrumented with the total number of candidate derivations attempted. -/
def scanCommitmentsSt (p2 : Nat → Nat → Nat) (p3 : Nat → Nat → Nat → Nat)
    (w : Wallet) (amounts : List Nat) (maxNonce : Nat) :
    SecretSession → List (Nat × String) → List OwnedCommitment × Nat × SecretSession
  | st, [] => ([], 0, st)
  | st, c :: rest =>
    let r := scanElementSt p2 p3 w maxNonce c.1 c.2 st amounts
    let rr := scanCommitmentsSt p2 p3 w amounts maxNonce r.2.2 rest
    (r.1 ++ rr.1, r.2.1 + rr.2.1, rr.2.2)

/-- Signature-cached specialisation of `deriveSecretSt`, used to state that a
scan with a cached session signature neither consults the wallet nor changes
the session. -/
def pureDeriveSecret (p3 : Nat → Nat → Nat → Nat) (s : List Nat)
    (nonce amount : Nat) : Except String Nat :=
  match bufferToBigInt (s.take 31) with
  | some mk => .ok (p3 mk nonce amount)
  | none => .error "Cannot convert 0x to a BigInt"

/-- Signature-cached specialisation of `scanNonceLoopSt`. -/
def scanNonceLoopPure (p2 : Nat → Nat → Nat) (p3 : Nat → Nat → Nat → Nat)
    (s : List Nat) (amount commitment : Nat) :
    Nat → Nat → Option (Nat × Nat) × Nat
  | _, 0 => (none, 0)
  | nonce, fuel + 1 =>
    match pureDeriveSecret p3 s nonce amount with
    | .ok secret =>
      if computeCommitment p2 amount secret = commitment then
        (some (nonce, secret), 1)
      else
        let r := scanNonceLoopPure p2 p3 s amount commitment (nonce + 1) fuel
        (r.1, r.2 + 1)
    | .error _ =>
      let r := scanNonceLoopPure p2 p3 s amount commitment (nonce + 1) fuel
      (r.1, r.2 + 1)

/-- Signature-cached specialisation of `scanElementSt`. -/
def scanElementPure (p2 : Nat → Nat → Nat) (p3 : Nat → Nat → Nat → Nat)
    (s : List Nat) (maxNonce : Nat) (commitment : Nat) (address : String) :
    List Nat → List OwnedCommitment × Nat
  | [] => ([], 0)
  | amount :: rest =>
    let r := scanNonceLoopPure p2 p3 s amount commitment 0 maxNonce
    let rr := scanElementPure p2 p3 s maxNonce commitment address rest
    match r.1 with
    | some ns => (⟨commitment, address, amount, ns.2, ns.1⟩ :: rr.1, r.2 + rr.2)
    | none => (rr.1, r.2 + rr.2)

/-- Signature-cached specialisation of `scanCommitmentsSt`. -/
def scanCommitmentsPure (p2 : Nat → Nat → Nat) (p3 : Nat → Nat → Nat → Nat)
    (s : List Nat) (amounts : List Nat) (maxNonce : Nat) :
    List (Nat × String) → List OwnedCommitment × Nat
  | [] => ([], 0)
  | c :: rest =>
    let r := scanElementPure p2 p3 s maxNonce c.1 c.2 amounts
    let rr := scanCommitmentsPure p2 p3 s amounts maxNonce rest
    (r.1 ++ rr.1, r.2 + rr.2)

/-- The amount vocabulary in lamports, `COMMON_AMOUNTS` of secrets.ts
lines 474-484. -/
def COMMON_AMOUNTS_LAMPORTS : List Nat :=
  [10000000, 50000000, 100000000, 500000000, 1000000000,
   5000000000, 10000000000, 50000000000, 100000000000]

/-! ## Balance reconstruction (`v3/client.ts`, `getBalance`) -/

/-- One entry of `commitmentsWithTime` in `getBalance` (client.ts
lines 648-655), amount kept in lamports. -/
structure TimedRecord where
  commitment : Nat
  amount : Nat
  nonce : Nat
  isSpent : Bool
  address : String
  blockTime : Int
deriving Repr, DecidableEq

/-- One entry of `V3BalanceInfo.commitments` (client.ts lines 30-36), the
timed record with `blockTime` dropped (client.ts line 729). -/
structure CommitmentRecord where
  commitment : Nat
  amount : Nat
  nonce : Nat
  isSpent : Bool
  address : String
deriving Repr, DecidableEq

/-- Embeds the sort comparator of `getBalance` (client.ts lines 719-726) as
the corresponding boolean preorder: `a` may precede `b` iff the comparator
returns a non-positive number on `(a, b)`. -/
def commitmentLE (a b : TimedRecord) : Bool :=
  if a.isSpent != b.isSpent then !a.isSpent
  else b.blockTime ≤ a.blockTime

/-- Embeds `commitmentsWithTime.sort(...)` (client.ts lines 719-726);
JavaScript's `Array.prototype.sort` is a stable sort by the comparator,
modelled by the stable `List.mergeSort`. -/
def sortCommitments (l : List TimedRecord) : List TimedRecord :=
  l.mergeSort commitmentLE

/-- Embeds `V3BalanceInfo` (client.ts lines 28-37), total in lamports. -/
structure V3BalanceInfo where
  totalBalance : Nat
  commitments : List CommitmentRecord
deriving Repr, DecidableEq

/-- An unchanged ledger snapshot as consumed by `getBalance`: the parsed
commitment accounts (commitment value and account address), which nullifier
accounts exist, and the observed block time of each commitment account. -/
structure LedgerSnapshot where
  commitmentAccounts : List (Nat × String)
  nullifierExists : Nat → Bool
  blockTimeOf : String → Int

/-- Embeds `DunV3Client.getBalance` (client.ts lines 595-735) over a ledger
snapshot: scan for owned commitments, mark each spent iff the nullifier
account exists, attach block times, sum the unspent amounts, sort, and drop
the block times. -/
def getBalanceSt (p2 : Nat → Nat → Nat) (p3 : Nat → Nat → Nat → Nat)
    (w : Wallet) (snap : LedgerSnapshot) (st : SecretSession) :
    V3BalanceInfo × SecretSession :=
  let scanned := scanCommitmentsSt p2 p3 w COMMON_AMOUNTS_LAMPORTS 100 st
    snap.commitmentAccounts
  let timed := scanned.1.map (fun o =>
    ({ commitment := o.commitment, amount := o.amount, nonce := o.nonce,
       isSpent := snap.nullifierExists (computeNullifier p2 o.secret o.commitment),
       address := o.address, blockTime := snap.blockTimeOf o.address } : TimedRecord))
  let total := (timed.filter (fun r => !r.isSpent)).foldl (fun acc r => acc + r.amount) 0
  let sorted := sortCommitments timed
  ({ totalBalance := total,
     commitments := sorted.map (fun r =>
       ({ commitment := r.commitment, amount := r.amount, nonce := r.nonce,
          isSpent := r.isSpent, address := r.address } : CommitmentRecord)) }, scanned.2.2)

/-! ## Deposit slot-collision loop (`v3/client.ts`, `deposit`) -/

/-- The message thrown when the collision-retry bound is exceeded
(client.ts line 137) — the spec's `SlotExhausted`. -/
def slotExhaustedMsg : String :=
  "Could not find available nonce after 100 attempts"

/-- Embeds the `while (commitmentExists && attempts < maxAttempts)` loop of
`DunV3Client.deposit` (client.ts lines 93-138): check whether the commitment
account for the current nonce exists; if so increment the nonce, re-derive the
secret (`deriveSecret`), recompute the commitment, and retry, for at most
`fuel` (= `maxAttempts` = 100) existence checks. `occ c` models whether a
commitment account for commitment value `c` already exists on ledger (the PDA
derivation from the commitment bytes is deterministic). Returns the chosen
`(nonce, commitment)` or throws `slotExhaustedMsg`. -/
def depositFindFreeSlot (occ : Nat → Bool) (p2 : Nat → Nat → Nat)
    (p3 : Nat → Nat → Nat → Nat) (mk amount : Nat) :
    Nat → Nat → Except String (Nat × Nat)
  | _, 0 => .error slotExhaustedMsg
  | nonce, fuel + 1 =>
    if occ (computeCommitment p2 amount (p3 mk nonce amount)) then
      depositFindFreeSlot occ p2 p3 mk amount (nonce + 1) fuel
    else
      .ok (nonce, computeCommitment p2 amount (p3 mk nonce amount))

/-- The max-attempts constant of the deposit collision loop
(client.ts line 95). -/
def depositMaxAttempts : Nat := 100

/-! ## Withdraw path (`v3/client.ts`, `withdraw`) -/

/-- Embeds the commitment selection of `DunV3Client.withdraw` (client.ts
lines 267-269): the first unspent record whose amount is at least the
requested withdrawal amount (amounts in lamports). -/
def selectWithdrawCommitment (records : List CommitmentRecord)
    (withdrawAmount : Nat) : Option CommitmentRecord :=
  records.find? (fun c => !c.isSpent && withdrawAmount ≤ c.amount)

/-- Embeds the change computation of `DunV3Client.withdraw` (client.ts
line 278): `commitmentAmountLamports - withdrawAmountLamports`. -/
def withdrawChangeAmount (commitmentAmount withdrawAmount : Nat) : Nat :=
  commitmentAmount - withdrawAmount

/-! ## Withdraw-with-change proof generation (`v3/proofs.ts`) -/

/-- Embeds the `WithdrawWithChangeProofInputs` interface
(proofs.ts lines 41-50), field values as numbers. -/
structure WithdrawWithChangeProofInputs where
  oldCommitment : Nat
  oldNullifier : Nat
  newCommitment : Nat
  withdrawAmount : Nat
  oldAmount : Nat
  oldSecret : Nat
  newAmount : Nat
  newSecret : Nat
deriving Repr, DecidableEq

/-- The circuit-input record handed to `groth16.fullProve`
(proofs.ts lines 193-202). -/
structure WithdrawWithChangeCircuitInputs where
  oldCommitment : Nat
  oldNullifier : Nat
  newCommitment : Nat
  withdrawAmount : Nat
  oldAmount : Nat
  oldSecret : Nat
  newAmount : Nat
  newSecret : Nat
deriving Repr, DecidableEq

/-- Embeds the input-building step of
`V3ProofGenerator.generateWithdrawWithChangeProof` (proofs.ts lines 183-216):
the method performs no local check on its inputs — every field is forwarded
unchanged to the external prover. -/
def buildWithdrawWithChangeCircuitInputs (i : WithdrawWithChangeProofInputs) :
    WithdrawWithChangeCircuitInputs :=
  { oldCommitment := i.oldCommitment, oldNullifier := i.oldNullifier,
    newCommitment := i.newCommitment, withdrawAmount := i.withdrawAmount,
    oldAmount := i.oldAmount, oldSecret := i.oldSecret,
    newAmount := i.newAmount, newSecret := i.newSecret }

/-! ## Amount vocabulary at the API boundary (`v3/client.ts`, `v5/client.ts`) -/

/-- The SOL-denominated amount vocabulary `COMMON_AMOUNTS` of
`lib/dun/v5/types.ts` line 584 (also shown to the UI), decimal literals
represented exactly in `ℚ`. -/
def commonAmountsSol : List ℚ :=
  [1/100, 1/20, 1/10, 1/2, 1, 5, 10, 50, 100]

/-- Embeds the checks `DunV3Client.deposit` (client.ts lines 65-80) performs
before its first network interaction (`getNextNonce`): the wallet-connected
guard and `getTokenMint` (client.ts lines 757-763). The amount is converted
to lamports but never validated against the vocabulary. -/
def v3DepositBoundaryCheck (connected : Bool) (token : String) (_amount : ℚ) :
    Except String Unit :=
  if !connected then .error "Wallet not connected"
  else if token != "SOL" then .error ("Unsupported token: " ++ token)
  else .ok ()

/-- Embeds the checks `DunV3Client.withdraw` (client.ts lines 248-260)
performs before its first network interaction (the `getBalance` scan): only
the wallet-connected guard. The amount is converted to lamports but never
validated against the vocabulary. -/
def v3WithdrawBoundaryCheck (connected : Bool) (_amount : ℚ) :
    Except String Unit :=
  if !connected then .error "Wallet not connected"
  else .ok ()

/-- Embeds the checks `DunV5Client.createPaymentRequest` (v5/client.ts
lines 146-160) performs before any network interaction: the wallet-connected
guard and the `COMMON_AMOUNTS.includes(params.amount)` vocabulary check. -/
def v5CreatePaymentRequestBoundaryCheck (connected : Bool) (amount : ℚ) :
    Except String Unit :=
  if !connected then .error "Wallet not connected"
  else if !(commonAmountsSol.contains amount) then
    .error "Amount must be one of the COMMON_AMOUNTS"
  else .ok ()

/-! ## Theorems -/

/-- Whenever `getWalletSignature` returns a signature, that signature is
cached in the resulting session (either it was already cached, or the fresh
signature is stored in the cache). -/
theorem getWalletSignature_ok_cached (st : SecretSession) (w : Wallet)
    (s : List Nat) (st1 : SecretSession) (b : Bool)
    (h : getWalletSignature st w = ⟨.ok s, st1, b⟩) :
    st1.cachedSignature = some s := by
  unfold getWalletSignature at h
  rcases hc : st.cachedSignature with _ | s0
  · rw [hc] at h
    by_cases hr : st.signatureRejected <;> simp [hr] at h
    by_cases hw : w.connected <;> simp [hw] at h
    by_cases hm : w.hasSignMessage <;> simp [hm] at h
    rcases ho : w.outcome with s1 | _ | m <;> rw [ho] at h <;> simp at h
    rcases h with ⟨h1, h2, _⟩
    rw [← h2, h1]
  · rw [hc] at h
    simp at h
    rcases h with ⟨h1, h2, _⟩
    rw [← h2, hc, h1]

/-- C5: after the wallet explicitly rejects a signature request once, the
session enters the rejected state, every subsequent signature request fails
fast with the same terminal rejection error without invoking the wallet's
`signMessage`, and `clearCache` resets the session. -/
theorem rejection_fails_fast (st : SecretSession) (w w' : Wallet)
    (hc : st.cachedSignature = none) (hr : st.signatureRejected = false)
    (hcon : w.connected = true) (hsm : w.hasSignMessage = true)
    (hout : w.outcome = .rejected) :
    getWalletSignature st w =
      ⟨.error rejectedMsg,
       { cachedSignature := none, signatureRejected := true }, true⟩ ∧
    getWalletSignature { cachedSignature := none, signatureRejected := true } w' =
      ⟨.error rejectedMsg,
       { cachedSignature := none, signatureRejected := true }, false⟩ ∧
    clearCache { cachedSignature := none, signatureRejected := true } =
      initialSession := by
  refine ⟨?_, ?_, rfl⟩
  · unfold getWalletSignature
    rw [hc]
    simp [hr, hcon, hsm, hout]
  · unfold getWalletSignature
    simp

/-- Witness for `rejection_fails_fast` at a concrete session and wallet. -/
theorem rejection_fails_fast_witness :
    getWalletSignature initialSession ⟨true, true, .rejected⟩ =
      ⟨.error rejectedMsg,
       { cachedSignature := none, signatureRejected := true }, true⟩ ∧
    getWalletSignature { cachedSignature := none, signatureRejected := true }
        ⟨true, true, .signed [7]⟩ =
      ⟨.error rejectedMsg,
       { cachedSignature := none, signatureRejected := true }, false⟩ ∧
    clearCache { cachedSignature := none, signatureRejected := true } =
      initialSession :=
  rejection_fails_fast initialSession ⟨true, true, .rejected⟩
    ⟨true, true, .signed [7]⟩ rfl rfl rfl rfl rfl

/-- C7: a successful `deriveSecret` returns `Poseidon(masterKey, nonce, amount)`
where `masterKey` is the big-endian integer of the 31-byte prefix of the
session signature, and a second call with the same `(nonce, amount)` (with any
wallet behaviour) returns the identical secret from the cached signature. -/
theorem deriveSecret_formula_deterministic (p3 : Nat → Nat → Nat → Nat)
    (st st1 : SecretSession) (w w' : Wallet) (nonce amount r : Nat)
    (h : deriveSecretSt p3 st w nonce amount = (.ok r, st1)) :
    (∃ s, st1.cachedSignature = some s ∧
      r = p3 (beBytesVal (s.take 31)) nonce amount) ∧
    deriveSecretSt p3 st1 w' nonce amount = (.ok r, st1) := by
  unfold deriveSecretSt deriveMasterKeySt at h
  rcases hgw : getWalletSignature st w with ⟨res, st2, b⟩
  rw [hgw] at h
  cases res with
  | error e => simp at h
  | ok s =>
    have hcache : st2.cachedSignature = some s :=
      getWalletSignature_ok_cached st w s st2 b hgw
    unfold bufferToBigInt at h
    by_cases he : (s.take 31).isEmpty <;> simp [he] at h
    rcases h with ⟨hr, hst⟩
    subst hst
    refine ⟨⟨s, hcache, hr.symm⟩, ?_⟩
    unfold deriveSecretSt deriveMasterKeySt getWalletSignature
    rw [hcache]
    simp [bufferToBigInt, he, hr]

/-- Witness for `deriveSecret_formula_deterministic` at a concrete session
with cached signature `[2, 3]`. -/
theorem deriveSecret_formula_deterministic_witness :
    (∃ s, (SecretSession.mk (some [2, 3]) false).cachedSignature = some s ∧
      515 + 1 + 4 = (fun a b c => a + b + c) (beBytesVal (s.take 31)) 1 4) ∧
    deriveSecretSt (fun a b c => a + b + c) ⟨some [2, 3], false⟩
      ⟨true, true, .rejected⟩ 1 4 = (.ok (515 + 1 + 4), ⟨some [2, 3], false⟩) :=
  deriveSecret_formula_deterministic (fun a b c => a + b + c)
    ⟨some [2, 3], false⟩ ⟨some [2, 3], false⟩ ⟨true, true, .signed [9]⟩
    ⟨true, true, .rejected⟩ 1 4 (515 + 1 + 4) rfl

/-- C2 counterexample: the amount 0.02 SOL is not in the vocabulary, yet both
`DunV3Client.deposit` and `DunV3Client.withdraw` accept it at the API boundary
(no vocabulary validation is performed before network interaction). -/
theorem v3_boundary_accepts_offVocabulary_amount :
    v3DepositBoundaryCheck true "SOL" (1/50) = .ok () ∧
    v3WithdrawBoundaryCheck true (1/50) = .ok () ∧
    commonAmountsSol.contains (1/50) = false := by
  refine ⟨rfl, rfl, ?_⟩
  simp only [commonAmountsSol, List.contains_eq_any_beq, List.any_cons, List.any_nil,
    beq_iff_eq, Bool.or_eq_false_iff, decide_eq_false_iff_not]
  norm_num

/-- C2 (amended): only the V5 `createPaymentRequest` validates the amount
against the fixed vocabulary before any network interaction; the V3 `deposit`
and `withdraw` operations accept every amount at the API boundary. -/
theorem amount_vocabulary_boundary (a : ℚ) :
    v3DepositBoundaryCheck true "SOL" a = .ok () ∧
    v3WithdrawBoundaryCheck true a = .ok () ∧
    (commonAmountsSol.contains a = false →
      v5CreatePaymentRequestBoundaryCheck true a =
        .error "Amount must be one of the COMMON_AMOUNTS") ∧
    (commonAmountsSol.contains a = true →
      v5CreatePaymentRequestBoundaryCheck true a = .ok ()) := by
  refine ⟨rfl, rfl, fun hmem => ?_, fun hmem => ?_⟩ <;>
    unfold v5CreatePaymentRequestBoundaryCheck <;> rw [hmem] <;> rfl

/-- Witness for `amount_vocabulary_boundary` at the vocabulary amount 0.05 SOL. -/
theorem amount_vocabulary_boundary_witness :
    v3DepositBoundaryCheck true "SOL" (1/20) = .ok () ∧
    v5CreatePaymentRequestBoundaryCheck true (1/20) = .ok () :=
  ⟨(amount_vocabulary_boundary (1/20)).1,
   (amount_vocabulary_boundary (1/20)).2.2.2 (by
     simp only [commonAmountsSol, List.contains_eq_any_beq, List.any_cons, List.any_nil,
       beq_iff_eq]
     norm_num)⟩

/-- C3 counterexample: `generateWithdrawWithChangeProof` performs no local
conservation pre-check — the input with `withdrawAmount = 1`, `newAmount = 1`,
`oldAmount = 5` is forwarded unchanged to the external prover even though
`withdrawAmount + newAmount ≠ oldAmount`. -/
theorem wwc_preCheck_accepts_nonConserving_input :
    buildWithdrawWithChangeCircuitInputs ⟨11, 22, 33, 1, 5, 7, 1, 9⟩ =
      ⟨11, 22, 33, 1, 5, 7, 1, 9⟩ ∧
    (buildWithdrawWithChangeCircuitInputs ⟨11, 22, 33, 1, 5, 7, 1, 9⟩).withdrawAmount +
        (buildWithdrawWithChangeCircuitInputs ⟨11, 22, 33, 1, 5, 7, 1, 9⟩).newAmount ≠
      (buildWithdrawWithChangeCircuitInputs ⟨11, 22, 33, 1, 5, 7, 1, 9⟩).oldAmount := by
  exact ⟨rfl, by decide⟩

/-- C3 (amended): the transaction builder's withdraw path computes the change
amount as the selected commitment amount minus the withdraw amount, so
`withdrawAmount + changeAmount = oldAmount` holds by construction whenever a
commitment is selected (the selected record is unspent and covers the
requested amount); `generateWithdrawWithChangeProof` itself performs no local
conservation check. -/
theorem withdraw_change_conserves_value (records : List CommitmentRecord)
    (wAmount : Nat) (r : CommitmentRecord)
    (h : selectWithdrawCommitment records wAmount = some r) :
    wAmount + withdrawChangeAmount r.amount wAmount = r.amount ∧
    r.isSpent = false ∧ wAmount ≤ r.amount := by
  have hp := List.find?_some h
  simp only [Bool.and_eq_true, Bool.not_eq_true', decide_eq_true_eq] at hp
  rcases hp with ⟨hs, hle⟩
  refine ⟨?_, hs, hle⟩
  unfold withdrawChangeAmount
  omega

/-- Witness for `withdraw_change_conserves_value` on a one-record balance. -/
theorem withdraw_change_conserves_value_witness :
    100000000 + withdrawChangeAmount
        (CommitmentRecord.mk 5 500000000 0 false "addr1").amount 100000000 =
      (CommitmentRecord.mk 5 500000000 0 false "addr1").amount ∧
    (CommitmentRecord.mk 5 500000000 0 false "addr1").isSpent = false ∧
    100000000 ≤ (CommitmentRecord.mk 5 500000000 0 false "addr1").amount :=
  withdraw_change_conserves_value [⟨5, 500000000, 0, false, "addr1"⟩]
    100000000 ⟨5, 500000000, 0, false, "addr1"⟩ (by decide)

/-- C6: the deposit collision loop returns the first slot index at or after
its starting nonce whose recomputed commitment has no existing ledger account
(checking at most `fuel` = max-attempts slots, re-deriving secret and
commitment at each step), so the chosen commitment never equals any
commitment already on ledger — in particular a second deposit of the same
amount never collides with the first; if every slot in the attempt window is
occupied, the deposit fails with the slot-exhausted error. -/
theorem deposit_slot_collision_resolution (occ : Nat → Bool)
    (p2 : Nat → Nat → Nat) (p3 : Nat → Nat → Nat → Nat) (mk amount : Nat) :
    ∀ fuel start,
    (∀ nonce c,
      depositFindFreeSlot occ p2 p3 mk amount start fuel = .ok (nonce, c) →
      c = computeCommitment p2 amount (p3 mk nonce amount) ∧ occ c = false ∧
      start ≤ nonce ∧ nonce < start + fuel ∧
      (∀ k, start ≤ k → k < nonce →
        occ (computeCommitment p2 amount (p3 mk k amount)) = true) ∧
      (∀ c1, occ c1 = true → c ≠ c1)) ∧
    ((∀ k, k < fuel →
        occ (computeCommitment p2 amount (p3 mk (start + k) amount)) = true) →
      depositFindFreeSlot occ p2 p3 mk amount start fuel =
        .error slotExhaustedMsg) := by
  intro fuel
  induction fuel with
  | zero =>
    intro start
    constructor
    · intro nonce c h
      simp [depositFindFreeSlot] at h
    · intro _
      rfl
  | succ n ih =>
    intro start
    constructor
    · intro nonce c h
      unfold depositFindFreeSlot at h
      by_cases hocc : occ (computeCommitment p2 amount (p3 mk start amount))
      · rw [if_pos hocc] at h
        obtain ⟨hc, hfree, hge, hlt, hmin, hne⟩ := (ih (start + 1)).1 nonce c h
        refine ⟨hc, hfree, by omega, by omega, ?_, hne⟩
        intro k hk1 hk2
        rcases Nat.eq_or_lt_of_le hk1 with heq | hlt'
        · rw [← heq]
          exact hocc
        · exact hmin k hlt' hk2
      · rw [if_neg hocc] at h
        simp only [Except.ok.injEq, Prod.mk.injEq] at h
        obtain ⟨h1, h2⟩ := h
        subst h1
        subst h2
        refine ⟨rfl, by simpa using hocc, Nat.le_refl _, by omega, ?_, ?_⟩
        · intro k hk1 hk2
          omega
        · intro c1 hc1 hce
          rw [← hce] at hc1
          exact hocc hc1
    · intro hall
      unfold depositFindFreeSlot
      rw [if_pos (by simpa using hall 0 (Nat.succ_pos n))]
      apply (ih (start + 1)).2
      intro k hk
      have := hall (k + 1) (by omega)
      rw [show start + 1 + k = start + (k + 1) by omega]
      exact this

/-- Witness for `deposit_slot_collision_resolution`: with commitment 4 (for
nonce 0) already on ledger, the loop advances to nonce 1 and returns the
fresh commitment 14 ≠ 4; with every slot occupied it reports slot
exhaustion. -/
theorem deposit_slot_collision_resolution_witness :
    (14 = computeCommitment (fun a s => a + s) 2
        ((fun m n a => m + 10 * n + a) 0 1 2) ∧
      (fun c => c == 4) 14 = false ∧ 0 ≤ 1 ∧ 1 < 0 + 100 ∧
      (∀ k, 0 ≤ k → k < 1 →
        (fun c => c == 4) (computeCommitment (fun a s => a + s) 2
          ((fun m n a => m + 10 * n + a) 0 k 2)) = true) ∧
      (∀ c1, (fun c => c == 4) c1 = true → 14 ≠ c1)) ∧
    depositFindFreeSlot (fun _ => true) (fun a s => a + s)
      (fun m n a => m + 10 * n + a) 0 2 0 3 = .error slotExhaustedMsg :=
  ⟨(deposit_slot_collision_resolution (fun c => c == 4) (fun a s => a + s)
      (fun m n a => m + 10 * n + a) 0 2 100 0).1 1 14 rfl,
   (deposit_slot_collision_resolution (fun _ => true) (fun a s => a + s)
      (fun m n a => m + 10 * n + a) 0 2 3 0).2 (fun _ _ => rfl)⟩

/-- Fuel irrelevance for the hex-digit expansion: any fuel above the value
computes the same digits. -/
theorem hexDigitsAux_congr : ∀ f1 f2 v, v < f1 → v < f2 →
    hexDigitsAux f1 v = hexDigitsAux f2 v := by
  intro f1
  induction f1 with
  | zero =>
    intro f2 v h1
    omega
  | succ n ih =>
    intro f2 v h1 h2
    cases f2 with
    | zero => omega
    | succ m =>
      unfold hexDigitsAux
      by_cases hv : v < 16
      · simp [hv]
      · simp only [hv, if_false]
        rw [ih m (v / 16) (by omega) (by omega)]

/-- First defining equation of `hexDigits`. -/
theorem hexDigits_lt {v : Nat} (h : v < 16) : hexDigits v = [v] := by
  unfold hexDigits hexDigitsAux
  simp [h]

/-- Second defining equation of `hexDigits`. -/
theorem hexDigits_ge {v : Nat} (h : 16 ≤ v) :
    hexDigits v = hexDigits (v / 16) ++ [v % 16] := by
  have hd : v / 16 < v := Nat.div_lt_self (by omega) (by omega)
  unfold hexDigits
  conv_lhs => rw [hexDigitsAux]
  rw [if_neg (by omega)]
  rw [hexDigitsAux_congr v (v / 16 + 1) (v / 16) hd (by omega)]

/-- The hex-digit expansion is never empty. -/
theorem hexDigits_ne_nil (v : Nat) : hexDigits v ≠ [] := by
  by_cases h : v < 16
  · rw [hexDigits_lt h]
    simp
  · rw [hexDigits_ge (by omega)]
    simp

/-- `hexVal` of a snoc. -/
theorem hexVal_concat (l : List Nat) (d : Nat) :
    hexVal (l ++ [d]) = hexVal l * 16 + d := by
  unfold hexVal
  rw [List.foldl_append]
  rfl

/-- The hex-digit expansion decodes back to the value. -/
theorem hexVal_hexDigits : ∀ v, hexVal (hexDigits v) = v := by
  intro v
  induction v using Nat.strong_induction_on with
  | _ v ih =>
    by_cases h : v < 16
    · rw [hexDigits_lt h]
      unfold hexVal
      simp
    · rw [hexDigits_ge (by omega), hexVal_concat,
        ih (v / 16) (Nat.div_lt_self (by omega) (by omega))]
      omega

/-- The value is below 16 to the number of its hex digits. -/
theorem lt_pow_hexDigits_length : ∀ v, v < 16 ^ (hexDigits v).length := by
  intro v
  induction v using Nat.strong_induction_on with
  | _ v ih =>
    by_cases h : v < 16
    · rw [hexDigits_lt h]
      simpa using h
    · rw [hexDigits_ge (by omega)]
      simp only [List.length_append, List.length_cons, List.length_nil, Nat.zero_add]
      have h1 := ih (v / 16) (Nat.div_lt_self (by omega) (by omega))
      have h2 : v < (v / 16 + 1) * 16 := by omega
      have h3 : (v / 16 + 1) * 16 ≤ 16 ^ (hexDigits (v / 16)).length * 16 :=
        Nat.mul_le_mul_right 16 h1
      rw [Nat.pow_succ]
      omega

/-- Values below `16 ^ k` (with `k ≥ 1`) have at most `k` hex digits. -/
theorem hexDigits_length_le : ∀ v k, 1 ≤ k → v < 16 ^ k →
    (hexDigits v).length ≤ k := by
  intro v
  induction v using Nat.strong_induction_on with
  | _ v ih =>
    intro k hk hv
    by_cases h : v < 16
    · rw [hexDigits_lt h]
      simpa using hk
    · have hk2 : 2 ≤ k := by
        by_contra hcon
        have : k = 1 := by omega
        rw [this] at hv
        simp at hv
        omega
      rw [hexDigits_ge (by omega)]
      have hdiv : v / 16 < 16 ^ (k - 1) := by
        rw [Nat.div_lt_iff_lt_mul (by omega)]
        calc v < 16 ^ k := hv
          _ = 16 ^ (k - 1) * 16 := by
              rw [← Nat.pow_succ]
              congr 1
              omega
      have := ih (v / 16) (Nat.div_lt_self (by omega) (by omega)) (k - 1)
        (by omega) hdiv
      simp only [List.length_append, List.length_cons, List.length_nil]
      omega

/-- Length of the hex-pair decoding: one byte per complete digit pair. -/
theorem hexPairsToBytes_length : ∀ d : List Nat,
    (hexPairsToBytes d).length = d.length / 2
  | [] => rfl
  | [x] => by
    have h : hexPairsToBytes [x] = [] := rfl
    rw [h]
    simp
  | _ :: _ :: rest => by
    simp only [hexPairsToBytes, List.length_cons]
    rw [hexPairsToBytes_length rest]
    omega

/-- On an even-length hex string, byte-pair decoding preserves the big-endian
value, for every accumulator. -/
theorem hexPairsToBytes_foldl : ∀ d : List Nat, d.length % 2 = 0 → ∀ acc : Nat,
    (hexPairsToBytes d).foldl (fun acc b => acc * 256 + b) acc =
      d.foldl (fun acc dg => acc * 16 + dg) acc
  | [], _, _ => rfl
  | [_], h, _ => by simp at h
  | hi :: lo :: rest, h, acc => by
    simp only [hexPairsToBytes, List.foldl_cons]
    rw [hexPairsToBytes_foldl rest (by simp only [List.length_cons] at h; omega)]
    congr 1
    ring

/-- On an odd-length hex string, Node's hex decoding drops the trailing lone
digit. -/
theorem hexPairsToBytes_odd : ∀ d : List Nat, d.length % 2 = 1 →
    hexPairsToBytes d = hexPairsToBytes d.dropLast
  | [], h => by simp at h
  | [_], _ => rfl
  | hi :: lo :: rest, h => by
    have hr : rest.length % 2 = 1 := by
      simp only [List.length_cons] at h
      omega
    have hne : rest ≠ [] := by
      intro hcon
      rw [hcon] at hr
      simp at hr
    have hdl : (hi :: lo :: rest).dropLast = hi :: lo :: rest.dropLast := by
      rcases rest with _ | ⟨x, xs⟩
      · exact absurd rfl hne
      · rfl
    rw [hdl]
    simp only [hexPairsToBytes]
    rw [hexPairsToBytes_odd rest hr]

/-- Zero padding on the left does not change the decoded hex value. -/
theorem hexVal_replicate_zero_append : ∀ (k : Nat) (d : List Nat),
    hexVal (List.replicate k 0 ++ d) = hexVal d := by
  intro k
  induction k with
  | zero => intro d; rfl
  | succ n ih =>
    intro d
    show hexVal (0 :: (List.replicate n 0 ++ d)) = hexVal d
    unfold hexVal at ih ⊢
    simp only [List.foldl_cons]
    exact ih d

/-- Dropping the last hex digit divides the value by 16. -/
theorem hexVal_dropLast_hexDigits (v : Nat) :
    hexVal (hexDigits v).dropLast = v / 16 := by
  by_cases h : v < 16
  · rw [hexDigits_lt h]
    simp only [List.dropLast_single]
    rw [show v / 16 = 0 by omega]
    rfl
  · rw [hexDigits_ge (by omega), List.dropLast_concat, hexVal_hexDigits]

/-- C8: decoding the 32-byte big-endian encoding of any `v < 2 ^ 256`
returns `v`: `bufferToBigInt (bigIntToBuffer v 32) = v`. -/
theorem bufferToBigInt_bigIntToBuffer (v : Nat) (h : v < 2 ^ 256) :
    bufferToBigInt (bigIntToBuffer v 32) = some v := by
  have h16 : v < 16 ^ 64 := by
    have : (16 : Nat) ^ 64 = 2 ^ 256 := by norm_num
    omega
  have hlen : (hexDigits v).length ≤ 64 := hexDigits_length_le v 64 (by omega) h16
  have hplen : (padStartZeros (hexDigits v) 64).length = 64 := by
    unfold padStartZeros
    simp only [List.length_append, List.length_replicate]
    omega
  have heven : (padStartZeros (hexDigits v) 64).length % 2 = 0 := by
    rw [hplen]
  have hval : hexVal (padStartZeros (hexDigits v) 64) = v := by
    unfold padStartZeros
    rw [hexVal_replicate_zero_append, hexVal_hexDigits]
  have hblen : (bigIntToBuffer v 32).length = 32 := by
    unfold bigIntToBuffer
    rw [show (32 : Nat) * 2 = 64 by norm_num, hexPairsToBytes_length, hplen]
  have hbval : beBytesVal (bigIntToBuffer v 32) = v := by
    unfold bigIntToBuffer beBytesVal
    rw [show (32 : Nat) * 2 = 64 by norm_num,
      hexPairsToBytes_foldl _ heven 0]
    exact hval
  unfold bufferToBigInt
  rw [if_neg (by
    intro hcon
    rw [List.isEmpty_iff] at hcon
    rw [hcon] at hblen
    simp at hblen)]
  rw [hbval]

/-- Witness for `bufferToBigInt_bigIntToBuffer` at `v = 258`. -/
theorem bufferToBigInt_bigIntToBuffer_witness :
    258 < 2 ^ 256 ∧ bufferToBigInt (bigIntToBuffer 258 32) = some 258 :=
  ⟨by norm_num, bufferToBigInt_bigIntToBuffer 258 (by norm_num)⟩

/-- C10 counterexample: `bigIntToBuffer 256 1` is the single byte `[16]` —
the hex string `"100"` has odd length, so Node's hex decoder drops the
trailing digit — hence for the out-of-range value 256 the buffer is NOT
strictly longer than the requested 1 byte (and it decodes to 16, not 256). -/
theorem bigIntToBuffer_overflow_not_longer :
    2 ^ (8 * 1) ≤ 256 ∧ bigIntToBuffer 256 1 = [16] ∧
    ¬ 1 < (bigIntToBuffer 256 1).length ∧ beBytesVal (bigIntToBuffer 256 1) = 16 := by
  decide

/-- C10 (amended): for in-range values (`v < 2 ^ (8 length)`) the encoder
returns exactly `length` bytes decoding back to `v`; for out-of-range values
the hex expansion has more than `2 length` digits and the buffer has
`⌊digits / 2⌋ ≥ length` bytes — strictly longer than `length` and decoding to
`v` when the digit count is even, but exactly `⌊digits / 2⌋` bytes decoding to
`v / 16` (the trailing nibble is dropped) when the digit count is odd. -/
theorem bigIntToBuffer_width (L v : Nat) :
    (v < 2 ^ (8 * L) →
      (bigIntToBuffer v L).length = L ∧ beBytesVal (bigIntToBuffer v L) = v) ∧
    (2 ^ (8 * L) ≤ v →
      2 * L < (hexDigits v).length ∧
      (bigIntToBuffer v L).length = (hexDigits v).length / 2 ∧
      L ≤ (bigIntToBuffer v L).length ∧
      ((hexDigits v).length % 2 = 0 →
        L < (bigIntToBuffer v L).length ∧ beBytesVal (bigIntToBuffer v L) = v) ∧
      ((hexDigits v).length % 2 = 1 →
        beBytesVal (bigIntToBuffer v L) = v / 16)) := by
  have hpow : (16 : Nat) ^ (2 * L) = 2 ^ (8 * L) := by
    rw [show (16 : Nat) = 2 ^ 4 from rfl, ← Nat.pow_mul]
    congr 1
    ring
  constructor
  · intro h
    rcases Nat.eq_zero_or_pos L with hL | hL
    · subst hL
      simp only [Nat.mul_zero, Nat.pow_zero, Nat.lt_one_iff] at h
      subst h
      exact ⟨rfl, rfl⟩
    · have h16 : v < 16 ^ (2 * L) := by omega
      have hlen : (hexDigits v).length ≤ 2 * L :=
        hexDigits_length_le v (2 * L) (by omega) h16
      have hplen : (padStartZeros (hexDigits v) (L * 2)).length = L * 2 := by
        unfold padStartZeros
        simp only [List.length_append, List.length_replicate]
        omega
      have heven : (padStartZeros (hexDigits v) (L * 2)).length % 2 = 0 := by
        rw [hplen]
        omega
      constructor
      · unfold bigIntToBuffer
        rw [hexPairsToBytes_length, hplen]
        omega
      · unfold bigIntToBuffer beBytesVal
        rw [hexPairsToBytes_foldl _ heven 0]
        show hexVal (padStartZeros (hexDigits v) (L * 2)) = v
        unfold padStartZeros
        rw [hexVal_replicate_zero_append, hexVal_hexDigits]
  · intro h
    have hub := lt_pow_hexDigits_length v
    have hlon : 2 * L < (hexDigits v).length := by
      by_contra hcon
      have : (16 : Nat) ^ (hexDigits v).length ≤ 16 ^ (2 * L) :=
        Nat.pow_le_pow_right (by omega) (by omega)
      omega
    have hpad : padStartZeros (hexDigits v) (L * 2) = hexDigits v := by
      unfold padStartZeros
      rw [show L * 2 - (hexDigits v).length = 0 by omega]
      rfl
    have hbuf : bigIntToBuffer v L = hexPairsToBytes (hexDigits v) := by
      unfold bigIntToBuffer
      rw [hpad]
    refine ⟨hlon, ?_, ?_, ?_, ?_⟩
    · rw [hbuf, hexPairsToBytes_length]
    · rw [hbuf, hexPairsToBytes_length]
      omega
    · intro hev
      rw [hbuf, hexPairsToBytes_length]
      refine ⟨by omega, ?_⟩
      unfold beBytesVal
      rw [hexPairsToBytes_foldl _ hev 0]
      exact hexVal_hexDigits v
    · intro hodd
      rw [hbuf, hexPairsToBytes_odd _ hodd]
      have hevdl : (hexDigits v).dropLast.length % 2 = 0 := by
        rw [List.length_dropLast]
        omega
      unfold beBytesVal
      rw [hexPairsToBytes_foldl _ hevdl 0]
      exact hexVal_dropLast_hexDigits v

/-- Witness for `bigIntToBuffer_width`: the in-range value 300 with width 2,
and the out-of-range value 256 with width 1 (odd digit count). -/
theorem bigIntToBuffer_width_witness :
    ((bigIntToBuffer 300 2).length = 2 ∧ beBytesVal (bigIntToBuffer 300 2) = 300) ∧
    beBytesVal (bigIntToBuffer 256 1) = 256 / 16 :=
  ⟨(bigIntToBuffer_width 2 300).1 (by norm_num),
   ((bigIntToBuffer_width 1 256).2 (by norm_num)).2.2.2.2 (by decide)⟩

/-- C1: evaluation of the scan at a one-element ledger whose commitment
matches the first amount at slot index 0. The source's `break` (secrets.ts
line 445, comment "Found it, move to next commitment") exits only the inner
nonce loop, so the scan still attempts `maxNonce` candidate derivations for
the second amount on the already-matched element: 3 derivations are
performed where the specified behaviour (stop for that element on match)
would perform exactly 1. -/
theorem scan_attempts_after_match :
    scanCommitmentsSt (fun a s => a + s) (fun m n a => m + 10 * n + a)
        ⟨true, true, .rejected⟩ [1, 3] 2 ⟨some [0], false⟩ [(2, "addr")] =
      ([⟨2, "addr", 1, 1, 0⟩], 3, ⟨some [0], false⟩) ∧ (3 : Nat) ≠ 1 := by
  decide

/-- With a cached session signature, `deriveSecret` consults only the cache
and leaves the session unchanged. -/
theorem deriveSecretSt_cached (p3 : Nat → Nat → Nat → Nat)
    (st : SecretSession) (w : Wallet) (nonce amount : Nat) (s : List Nat)
    (h : st.cachedSignature = some s) :
    deriveSecretSt p3 st w nonce amount = (pureDeriveSecret p3 s nonce amount, st) := by
  unfold deriveSecretSt deriveMasterKeySt getWalletSignature pureDeriveSecret
  rw [h]
  rcases hbb : bufferToBigInt (s.take 31) with _ | mk <;> simp [hbb]

/-- With a cached session signature, the scan's nonce loop is
wallet-independent and leaves the session unchanged. -/
theorem scanNonceLoopSt_cached (p2 : Nat → Nat → Nat) (p3 : Nat → Nat → Nat → Nat)
    (w : Wallet) (amount c : Nat) (st : SecretSession) (s : List Nat)
    (h : st.cachedSignature = some s) :
    ∀ fuel nonce, scanNonceLoopSt p2 p3 w amount c st nonce fuel =
      ((scanNonceLoopPure p2 p3 s amount c nonce fuel).1,
       (scanNonceLoopPure p2 p3 s amount c nonce fuel).2, st) := by
  intro fuel
  induction fuel with
  | zero => intro nonce; rfl
  | succ n ih =>
    intro nonce
    unfold scanNonceLoopSt scanNonceLoopPure
    rw [deriveSecretSt_cached p3 st w nonce amount s h]
    cases hpd : pureDeriveSecret p3 s nonce amount with
    | ok secret =>
      by_cases hc : computeCommitment p2 amount secret = c
      · simp [hc]
      · simp [hc, ih (nonce + 1)]
    | error e => simp [ih (nonce + 1)]

/-- With a cached session signature, the per-element amount loop is
wallet-independent and leaves the session unchanged. -/
theorem scanElementSt_cached (p2 : Nat → Nat → Nat) (p3 : Nat → Nat → Nat → Nat)
    (w : Wallet) (maxNonce c : Nat) (addr : String) (st : SecretSession)
    (s : List Nat) (h : st.cachedSignature = some s) :
    ∀ amounts, scanElementSt p2 p3 w maxNonce c addr st amounts =
      ((scanElementPure p2 p3 s maxNonce c addr amounts).1,
       (scanElementPure p2 p3 s maxNonce c addr amounts).2, st) := by
  intro amounts
  induction amounts with
  | nil => rfl
  | cons amount rest ih =>
    unfold scanElementSt scanElementPure
    rw [scanNonceLoopSt_cached p2 p3 w amount c st s h maxNonce 0]
    cases hm : (scanNonceLoopPure p2 p3 s amount c 0 maxNonce).1 with
    | some ns => simp [ih, hm]
    | none => simp [ih, hm]

/-- With a cached session signature, the whole scan is wallet-independent and
leaves the session unchanged. -/
theorem scanCommitmentsSt_cached (p2 : Nat → Nat → Nat)
    (p3 : Nat → Nat → Nat → Nat) (w : Wallet) (amounts : List Nat)
    (maxNonce : Nat) (st : SecretSession) (s : List Nat)
    (h : st.cachedSignature = some s) :
    ∀ commitments, scanCommitmentsSt p2 p3 w amounts maxNonce st commitments =
      ((scanCommitmentsPure p2 p3 s amounts maxNonce commitments).1,
       (scanCommitmentsPure p2 p3 s amounts maxNonce commitments).2, st) := by
  intro commitments
  induction commitments with
  | nil => rfl
  | cons c rest ih =>
    unfold scanCommitmentsSt scanCommitmentsPure
    rw [scanElementSt_cached p2 p3 w maxNonce c.1 c.2 st s h amounts]
    simp [ih]

/-- With a cached session signature, `getBalance` is wallet-independent and
leaves the session unchanged. -/
theorem getBalanceSt_cached (p2 : Nat → Nat → Nat) (p3 : Nat → Nat → Nat → Nat)
    (w w' : Wallet) (snap : LedgerSnapshot) (st : SecretSession) (s : List Nat)
    (h : st.cachedSignature = some s) :
    (getBalanceSt p2 p3 w snap st).2 = st ∧
    getBalanceSt p2 p3 w snap st = getBalanceSt p2 p3 w' snap st := by
  unfold getBalanceSt
  rw [scanCommitmentsSt_cached p2 p3 w COMMON_AMOUNTS_LAMPORTS 100 st s h
      snap.commitmentAccounts,
    scanCommitmentsSt_cached p2 p3 w' COMMON_AMOUNTS_LAMPORTS 100 st s h
      snap.commitmentAccounts]
  exact ⟨rfl, rfl⟩

/-- C9: with the session signature cached, running the balance scan twice
against the same unchanged ledger snapshot produces identical `BalanceView`s
— the same records in the same order and the same aggregate total — the
second run starting from the session state left by the first (and with any
wallet behaviour). -/
theorem getBalance_scan_idempotent (p2 : Nat → Nat → Nat)
    (p3 : Nat → Nat → Nat → Nat) (w w' : Wallet) (snap : LedgerSnapshot)
    (st : SecretSession) (s : List Nat) (h : st.cachedSignature = some s) :
    (getBalanceSt p2 p3 w snap st).2 = st ∧
    (getBalanceSt p2 p3 w' snap ((getBalanceSt p2 p3 w snap st).2)).1 =
      (getBalanceSt p2 p3 w snap st).1 := by
  obtain ⟨h1, h2⟩ := getBalanceSt_cached p2 p3 w w' snap st s h
  refine ⟨h1, ?_⟩
  rw [h1, ← h2]

/-- Witness for `getBalance_scan_idempotent` on a one-account snapshot with a
cached signature. -/
theorem getBalance_scan_idempotent_witness :
    (getBalanceSt (fun a s => a + s) (fun m n a => m + n + a)
        ⟨true, true, .rejected⟩
        ⟨[(20000000, "a1")], fun _ => false, fun _ => 3⟩
        ⟨some [0], false⟩).2 = ⟨some [0], false⟩ ∧
    (getBalanceSt (fun a s => a + s) (fun m n a => m + n + a)
        ⟨true, true, .signed [9]⟩
        ⟨[(20000000, "a1")], fun _ => false, fun _ => 3⟩
        ((getBalanceSt (fun a s => a + s) (fun m n a => m + n + a)
          ⟨true, true, .rejected⟩
          ⟨[(20000000, "a1")], fun _ => false, fun _ => 3⟩
          ⟨some [0], false⟩).2)).1 =
      (getBalanceSt (fun a s => a + s) (fun m n a => m + n + a)
        ⟨true, true, .rejected⟩
        ⟨[(20000000, "a1")], fun _ => false, fun _ => 3⟩
        ⟨some [0], false⟩).1 :=
  getBalance_scan_idempotent (fun a s => a + s) (fun m n a => m + n + a)
    ⟨true, true, .rejected⟩ ⟨true, true, .signed [9]⟩
    ⟨[(20000000, "a1")], fun _ => false, fun _ => 3⟩
    ⟨some [0], false⟩ [0] rfl

/-- The balance-sort comparator preorder is transitive. -/
theorem commitmentLE_trans (a b c : TimedRecord) :
    commitmentLE a b = true → commitmentLE b c = true → commitmentLE a c = true := by
  unfold commitmentLE
  cases ha : a.isSpent <;> cases hb : b.isSpent <;> cases hc : c.isSpent <;>
    simp_all <;> omega

/-- The balance-sort comparator preorder is total. -/
theorem commitmentLE_total (a b : TimedRecord) :
    (commitmentLE a b || commitmentLE b a) = true := by
  unfold commitmentLE
  cases ha : a.isSpent <;> cases hb : b.isSpent <;> simp_all <;> omega

/-- C4 counterexample: two unspent records with the same creation time whose
scan order disagrees with the address order stay in scan order — the
comparator (client.ts lines 719-726) has no address tie-break, so the record
with address "b" stays before the record with address "a". -/
theorem balance_sort_ignores_address :
    sortCommitments [⟨1, 100, 0, false, "b", 5⟩, ⟨2, 200, 1, false, "a", 5⟩] =
      [⟨1, 100, 0, false, "b", 5⟩, ⟨2, 200, 1, false, "a", 5⟩] ∧
    ("a" : String) < "b" ∧
    sortCommitments [⟨1, 100, 0, false, "b", 5⟩, ⟨2, 200, 1, false, "a", 5⟩] ≠
      [⟨2, 200, 1, false, "a", 5⟩, ⟨1, 100, 0, false, "b", 5⟩] := by
  have hs : sortCommitments
      [⟨1, 100, 0, false, "b", 5⟩, ⟨2, 200, 1, false, "a", 5⟩] =
      [⟨1, 100, 0, false, "b", 5⟩, ⟨2, 200, 1, false, "a", 5⟩] :=
    List.mergeSort_of_sorted (by decide)
  refine ⟨hs, ?_, ?_⟩
  · rw [String.lt_iff_toList_lt]
    decide
  · rw [hs]
    decide

/-- C4 (amended): the reconstructed balance ordering is a stable sort by the
comparator — unspent records before spent ones, within each group by
ledger-observed creation time descending; records that compare equal (same
spent status and creation time) keep their scan order, with no address
tie-break. -/
theorem balance_sort_order (l : List TimedRecord) :
    List.Perm (sortCommitments l) l ∧
    List.Pairwise (fun a b => commitmentLE a b = true) (sortCommitments l) ∧
    ∀ a b, commitmentLE a b = true → List.Sublist [a, b] l →
      List.Sublist [a, b] (sortCommitments l) := by
  unfold sortCommitments
  refine ⟨List.mergeSort_perm l commitmentLE, ?_, ?_⟩
  · exact List.sorted_mergeSort commitmentLE_trans commitmentLE_total l
  · intro a b hab hsub
    exact List.pair_sublist_mergeSort commitmentLE_trans commitmentLE_total hab hsub

/-- Witness for `balance_sort_order` on concrete record lists. -/
theorem balance_sort_order_witness :
    List.Perm
      (sortCommitments [⟨3, 1, 0, true, "p", 7⟩, ⟨4, 2, 1, false, "q", 9⟩])
      [⟨3, 1, 0, true, "p", 7⟩, ⟨4, 2, 1, false, "q", 9⟩] ∧
    List.Sublist [⟨9, 5, 0, false, "r", 8⟩, ⟨8, 6, 1, false, "t", 8⟩]
      (sortCommitments [⟨9, 5, 0, false, "r", 8⟩, ⟨8, 6, 1, false, "t", 8⟩]) :=
  ⟨(balance_sort_order [⟨3, 1, 0, true, "p", 7⟩, ⟨4, 2, 1, false, "q", 9⟩]).1,
   (balance_sort_order [⟨9, 5, 0, false, "r", 8⟩, ⟨8, 6, 1, false, "t", 8⟩]).2.2
     ⟨9, 5, 0, false, "r", 8⟩ ⟨8, 6, 1, false, "t", 8⟩ (by decide)
     (List.Sublist.refl _)⟩
